import Mathlib

/- Shallow embedding of the colosseumrl match-orchestration core:
   the ranking store (matchmaking/RankingDatabase.py), the match supervisor
   (matchmaking/MatchmakingServer.py, MatchProcessJanitor), the matchmaking
   scheduler (MatchmakingThread), and the match server phase loop
   (match_server.py, server_app). -/

namespace Colosseum

/-- Python str.lower() on a string, character by character (all usernames in
this repository are ASCII, where str.lower agrees with per-character
lowercasing). -/
def pyLower (s : String) : String :=
  ⟨s.data.map Char.toLower⟩

/-- One row of the sqlite userz table: (username, password, mu, sigma).
The table is created with no uniqueness constraint, so it is a plain list of
rows in insertion order. -/
structure DBRow where
  name : String
  pw : String
  mu : ℚ
  sigma : ℚ
deriving DecidableEq

/-- In-memory model of RankingDatabase: the userz table (rows in insertion
order) plus the private logged-in Python set, which stores the raw username
strings passed to login. -/
structure RankingDatabase where
  table : List DBRow
  logged_in : List String
deriving DecidableEq

/-- Enumerated results of a login attempt (RankingDatabase.LoginResult). -/
inductive LoginResult where
  | LoginSuccess
  | LoginFail
  | LoginDuplicate
  | NoUser
deriving DecidableEq

/-- RankingDatabase.get: SELECT * FROM userz WHERE username=? with the
parameter username.lower(); fetchone returns the first matching row in
table order. -/
def RankingDatabase.get (db : RankingDatabase) (username : String) : Option DBRow :=
  db.table.find? (fun r => r.name = pyLower username)

/-- RankingDatabase.get_multi: SELECT * FROM userz WHERE username IN (args),
with every argument lowercased; fetchall returns every matching row in
table order. -/
def RankingDatabase.getMulti (db : RankingDatabase) (names : List String) : List DBRow :=
  db.table.filter (fun r => r.name ∈ names.map pyLower)

/-- RankingDatabase.set: an unconditional INSERT INTO userz of
(username.lower(), password, 25, 25/3); the trueskill default rating. -/
def RankingDatabase.set (db : RankingDatabase) (username pw : String) : RankingDatabase :=
  { db with table := db.table ++ [⟨pyLower username, pw, 25, 25 / 3⟩] }

/-- Python set.add: a no-op when the element is already present. -/
def addLogin (l : List String) (u : String) : List String :=
  if u ∈ l then l else l ++ [u]

/-- RankingDatabase.login: look the row up (case-insensitively), check the
password, then check the raw username against the logged-in set and add the
raw username on success. -/
def RankingDatabase.login (db : RankingDatabase) (username pw : String) :
    LoginResult × RankingDatabase :=
  match db.get username with
  | none => (LoginResult.NoUser, db)
  | some entry =>
    if entry.pw ≠ pw then (LoginResult.LoginFail, db)
    else if username ∈ db.logged_in then (LoginResult.LoginDuplicate, db)
    else (LoginResult.LoginSuccess, { db with logged_in := addLogin db.logged_in username })

/-- RankingDatabase.logoff: Python set.remove raises KeyError when the
element is absent, modelled as none. -/
def RankingDatabase.logoff (db : RankingDatabase) (username : String) :
    Option RankingDatabase :=
  if username ∈ db.logged_in then
    some { db with logged_in := db.logged_in.erase username }
  else none

/-- One UPDATE userz SET mu=?, sigma=? WHERE username=? statement: every row
whose username matches is rewritten. -/
def applyUpdate (t : List DBRow) (u : String × ℚ × ℚ) : List DBRow :=
  t.map (fun r => if r.name = u.1 then { r with mu := u.2.1, sigma := u.2.2 } else r)

/-- The UPDATE loop of update_ranking, one statement per (name, new rating). -/
def applyUpdates (t : List DBRow) (us : List (String × ℚ × ℚ)) : List DBRow :=
  us.foldl applyUpdate t

/-- RankingDatabase.update_ranking. The trueskill rate call is abstracted as
rateFn: given the old singleton rating groups (name, mu, sigma) and the match
rank of each group, it returns the new (mu, sigma) of each group in order.
The method lowercases the placement keys, reads the matching rows with
get_multi, runs the rating update, and rewrites mu and sigma of the matched
rows. It never touches the logged-in set. -/
def RankingDatabase.updateRanking
    (rateFn : List (String × ℚ × ℚ) → List Nat → List (ℚ × ℚ))
    (db : RankingDatabase) (matchRanking : List (String × Nat)) : RankingDatabase :=
  let mr := matchRanking.map (fun kv => (pyLower kv.1, kv.2))
  let entries := db.getMulti (mr.map Prod.fst)
  let olds := entries.map (fun r => (r.name, r.mu, r.sigma))
  let ranks := entries.map (fun r => ((mr.find? (fun kv => kv.1 = r.name)).map Prod.snd).getD 0)
  let news := rateFn olds ranks
  let updates := (entries.map (fun r => r.name)).zip news
  { db with table := applyUpdates db.table updates }

/-- The state held by one MatchProcessJanitor: the shared free-port queue
(put appends at the back), the value of the concurrency semaphore, and the
shared ranking database. -/
structure JanitorState where
  ports : List Nat
  sem : Nat
  db : RankingDatabase
deriving DecidableEq

/-- The logoff loop of MatchProcessJanitor.run: log off each listed user in
order; a KeyError from set.remove aborts the loop, leaving the earlier
logoffs applied (error carries the database state reached so far). -/
def logoffAll : RankingDatabase → List String → Except RankingDatabase RankingDatabase
  | db, [] => Except.ok db
  | db, u :: us =>
    match db.logoff u with
    | some db2 => logoffAll db2 us
    | none => Except.error db

/-- MatchProcessJanitor.run after the match server has returned: update the
ranking when the result is a dict, log off every listed user, then put the
port back and release the semaphore. There is no exception guard, so an
exception escaping the logoff loop skips the port return and the semaphore
release (the error state keeps the old ports and sem). -/
def janitorRun (rateFn : List (String × ℚ × ℚ) → List Nat → List (ℚ × ℚ))
    (port : Nat) (playerList : List String)
    (rankings : Option (List (String × Nat))) (s : JanitorState) :
    Except JanitorState JanitorState :=
  let db1 := match rankings with
    | some r => RankingDatabase.updateRanking rateFn s.db r
    | none => s.db
  match logoffAll db1 playerList with
  | Except.error dbE => Except.error { ports := s.ports, sem := s.sem, db := dbE }
  | Except.ok db2 => Except.ok { ports := s.ports ++ [port], sem := s.sem + 1, db := db2 }

/-- One Player row of the spacetime dataframe (data_model.py). number and
observation_port start at -1 and are assigned during FINALIZING. -/
structure Session where
  pid : Nat
  authentication_key : String
  name : String
  number : Int
  observation_port : Int
  action : String
  reward_from_last_turn : ℚ
  turn : Bool
  ready_for_start : Bool
  ready_for_action_to_be_taken : Bool
  winner : Bool
  acknowledges_game_over : Bool
deriving DecidableEq

/-- A freshly constructed Player row, before FINALIZING. -/
def mkSession (pid : Nat) (authKey name : String) : Session :=
  ⟨pid, authKey, name, -1, -1, "", -1, false, false, false, false, false⟩

/-- One change observed by a CONNECTING-phase sync of the master dataframe:
either a new Player row appeared (a join) or a tracked row vanished (a
dropout). Dataframe.read_all is modelled as returning rows in insertion
order, so the connected list below is kept in join order. -/
inductive ConnEvent where
  | join (p : Session)
  | leave (pid : Nat)
deriving DecidableEq

/-- CONNECTING-phase bookkeeping of server_app: the acknowledged players (the
players dict, in join order) and the whitelist_connected dict. The dict keys
are exactly the whitelist tokens (a dropout only ever resets the key of a
previously accepted, hence whitelisted, session), so the key set is static
and only the boolean consumed flags are tracked here. -/
structure ConnState where
  connected : List Session
  wc : String → Bool

/-- Whether a joining row passes both whitelist checks of server_app:
with a non-empty whitelist its key must be a whitelist key and that key must
not currently be consumed. -/
def joinAdmitted (wl : List String) (s : ConnState) (p : Session) : Prop :=
  ¬(wl ≠ [] ∧ p.authentication_key ∉ wl) ∧ ¬(wl ≠ [] ∧ s.wc p.authentication_key = true)

instance (wl : List String) (s : ConnState) (p : Session) :
    Decidable (joinAdmitted wl s p) := by
  unfold joinAdmitted; infer_instance

/-- One CONNECTING-phase event handled by server_app. A join whose pid is
already tracked is not in new_players.keys() - players.keys() and changes
nothing; an admitted join appends the row and consumes its token; a rejected
join deletes only its own row; a dropout removes the row and frees its
token. -/
def connStep (wl : List String) (s : ConnState) : ConnEvent → ConnState
  | ConnEvent.join p =>
    if (s.connected.find? (fun q => q.pid = p.pid)).isSome then s
    else if joinAdmitted wl s p then
      { connected := s.connected ++ [p],
        wc := fun k => if k = p.authentication_key then true else s.wc k }
    else s
  | ConnEvent.leave pid =>
    match s.connected.find? (fun q => q.pid = pid) with
    | some q =>
      { connected := s.connected.filter (fun r => r.pid ≠ pid),
        wc := fun k => if k = q.authentication_key then false else s.wc k }
    | none => s

/-- The CONNECTING phase over a whole event sequence, starting from no
players and an all-false whitelist_connected dict. -/
def connRun (wl : List String) (evts : List ConnEvent) : ConnState :=
  evts.foldl (connStep wl) ⟨[], fun _ => false⟩

/-- The CONNECTING phase, additionally logging every admitted session over
the whole phase. -/
def connRunLog (wl : List String) (evts : List ConnEvent) : ConnState × List Session :=
  evts.foldl
    (fun sl e =>
      (connStep wl sl.1 e,
       match e with
       | ConnEvent.join p =>
         if (sl.1.connected.find? (fun q => q.pid = p.pid)).isSome then sl.2
         else if joinAdmitted wl sl.1 p then sl.2 ++ [p] else sl.2
       | ConnEvent.leave _ => sl.2))
    (⟨⟨[], fun _ => false⟩, []⟩)

/-- The FINALIZING loop of server_app: enumerate the players dict, give the
i-th player number i and its observation port, and set the turn flag of the
initial turn holders. -/
def finalizePlayers (obsPort : Nat → Int) (initialTurns : List Int)
    (ps : List Session) : List Session :=
  ps.enum.map (fun ip =>
    { ip.2 with
        number := (ip.1 : Int),
        observation_port := obsPort ip.2.pid,
        turn := if (ip.1 : Int) ∈ initialTurns then true else ip.2.turn })

/-- The RUNNING-phase filter: the players whose number is in the current
turn-holder list, in the order of the players dict (join order). -/
def currentPlayers (players : List Session) (turns : List Int) : List Session :=
  players.filter (fun p => p.number ∈ turns)

/-- The RUNNING-phase action validation of server_app: keep the pending
action when it is the empty string or is accepted by is_valid_action,
otherwise substitute the empty string. -/
def validateAction {S : Type} (isValid : S → Int → String → Bool) (state : S)
    (p : Session) : String :=
  if p.action = "" ∨ isValid state p.number p.action = true then p.action else ""

/-- The current_actions list of one RUNNING tick: the validated pending
actions, in current_players order. -/
def currentActions {S : Type} (isValid : S → Int → String → Bool) (state : S)
    (players : List Session) (turns : List Int) : List String :=
  (currentPlayers players turns).map (validateAction isValid state)

/-- The argument triple of the env.next_state call made by one RUNNING tick:
the state, players=player_turns as returned by the environment, and
actions=current_actions. -/
structure NextStateCall (S : Type) where
  state : S
  players : List Int
  actions : List String

/-- Build the env.next_state call of one RUNNING tick that proceeds. -/
def runningTickCall {S : Type} (isValid : S → Int → String → Bool) (state : S)
    (players : List Session) (turns : List Int) : NextStateCall S :=
  ⟨state, turns, currentActions isValid state players turns⟩

/-- Look a session up by player number, as players_by_number does. -/
def findByNumber (players : List Session) (n : Int) : Option Session :=
  players.find? (fun p => p.number = n)

/-- One pending entry of the matchmaking queue: the zmq identity and the
username and generated per-session token of the request. The OrderedDict of
MatchmakingThread.run is modelled as a list in insertion order with distinct
identities. -/
structure MatchRequest where
  identity : Nat
  username : String
  authKey : String
deriving DecidableEq

/-- MatchmakingThread.select_players: pop players_per_game entries from the
front of the OrderedDict (popitem with last=False). popitem raises KeyError
on an empty dict, modelled as none; the call site guards the length. -/
def selectPlayers : Nat → List MatchRequest → Option (List MatchRequest × List MatchRequest)
  | 0, reqs => some ([], reqs)
  | _ + 1, [] => none
  | n + 1, r :: rs =>
    match selectPlayers n rs with
    | some (sel, rem) => some (r :: sel, rem)
    | none => none

/-- The environment class interface consulted by the scheduler. -/
structure EnvClass where
  min_players : Nat
  max_players : Nat
deriving DecidableEq

/-- MatchmakingThread construction sets players_per_game once, from the
configured environment's min_players. -/
def playersPerGame (env : EnvClass) : Nat := env.min_players

/-- The match-forming step of MatchmakingThread.run: when enough requests are
pending, select the players and build the whitelist (their tokens) and the
username list; otherwise no match is formed. Returns the formed match data
and the remaining queue. -/
def matchmakingStep (ppg : Nat) (reqs : List MatchRequest) :
    Option ((List MatchRequest × List String × List String) × List MatchRequest) :=
  if ppg ≤ reqs.length then
    match selectPlayers ppg reqs with
    | some (sel, rem) =>
      some ((sel, sel.map MatchRequest.authKey, sel.map MatchRequest.username), rem)
    | none => none
  else none

/-- Invariant of the CONNECTING-phase state: tracked players have pairwise
distinct pids and pairwise distinct whitelist tokens, and a token is marked
consumed in whitelist_connected exactly when a currently tracked player
holds it. -/
def ConnInv (s : ConnState) : Prop :=
  ((s.connected.map Session.pid).Nodup) ∧
  ((s.connected.map Session.authentication_key).Nodup) ∧
  (∀ t, s.wc t = true ↔ t ∈ s.connected.map Session.authentication_key)

/-- Concrete session rows used in concrete instantiations. -/
def sessA : Session :=
  { mkSession 1 "tokA" "playerA" with number := 0, action := "actA" }

/-- Second concrete session row. -/
def sessB : Session :=
  { mkSession 2 "tokB" "playerB" with number := 1, action := "actB" }

/-- A session joining with token tok1. -/
def sessT1 : Session := mkSession 11 "tok1" "alice"

/-- A second session joining with the same token tok1. -/
def sessT2 : Session := mkSession 12 "tok1" "mallory"

/- ------------------------------------------------------------------ -/
/- Helper lemmas                                                      -/
/- ------------------------------------------------------------------ -/

theorem find?_snoc_same {α : Type} (p : α → Bool) (l : List α) (a b : α)
    (hab : p b = p a) :
    ((l ++ [a]) ++ [b]).find? p = (l ++ [a]).find? p := by
  induction l with
  | nil =>
    cases h : p a with
    | false => simp [List.find?, h, hab.trans h]
    | true => simp [List.find?, h]
  | cons x xs ih =>
    cases h : p x with
    | false => simpa [List.find?, h] using ih
    | true => simp [List.find?, h]

/-- Claim C5 is false on the code: RankingDatabase.set is an unconditional
INSERT, so a second set for the same username (even with the same password)
does not leave the table in the state after the first call: an additional
row is created. -/
theorem set_twice_adds_row :
    (¬ (((⟨[], []⟩ : RankingDatabase).set "ann" "p1").set "ann" "p1"
        = (⟨[], []⟩ : RankingDatabase).set "ann" "p1")) ∧
    ((((⟨[], []⟩ : RankingDatabase).set "ann" "p1").set "ann" "p1").table.length = 2) ∧
    (((⟨[], []⟩ : RankingDatabase).set "ann" "p1").table.length = 1) := by
  refine ⟨fun h => ?_, by simp [RankingDatabase.set], by simp [RankingDatabase.set]⟩
  have h2 := congrArg (fun d => d.table.length) h
  simp [RankingDatabase.set] at h2

/-- Claim C5 amended: a second set for the same username appends one more
row (with the second password and the default rating) instead of being
idempotent, but every get lookup still returns the same row as after the
first call, so the get-visible stored password and rating parameters are
unchanged; the logged-in set is untouched. -/
theorem set_twice_appends_but_get_unchanged (db : RankingDatabase)
    (u p1 p2 v : String) :
    (((db.set u p1).set u p2).table.length = db.table.length + 2) ∧
    (((db.set u p1).set u p2).get v = (db.set u p1).get v) ∧
    (((db.set u p1).set u p2).logged_in = db.logged_in) := by
  refine ⟨by simp [RankingDatabase.set], ?_, rfl⟩
  exact find?_snoc_same _ db.table
    ⟨pyLower u, p1, 25, 25 / 3⟩ ⟨pyLower u, p2, 25, 25 / 3⟩ rfl

/-- Claim C3 is false on the code: the userz table is keyed by the
lowercased username but the logged-in set stores the raw username string, so
after a successful login of Alice (with no logoff), a login of the case
variant alice still returns LoginSuccess. -/
theorem login_case_variant_double_login :
    ((RankingDatabase.login ⟨[⟨"alice", "pw", 25, 25 / 3⟩], []⟩ "Alice" "pw").1
        = LoginResult.LoginSuccess) ∧
    ((((RankingDatabase.login ⟨[⟨"alice", "pw", 25, 25 / 3⟩], []⟩ "Alice" "pw").2).login
        "alice" "pw").1 = LoginResult.LoginSuccess) := by
  decide

/-- Claim C3 amended: the logged-in-at-most-once guarantee holds for the
exact username string only: while a username string is in the logged-in set,
any further login attempt for that same string never returns LoginSuccess
and leaves the store unchanged; a case variant of the name can still log in,
as the counterexample shows. -/
theorem login_exact_username_at_most_once (db : RankingDatabase) (u p : String)
    (h : u ∈ db.logged_in) :
    (db.login u p).1 ≠ LoginResult.LoginSuccess ∧ (db.login u p).2 = db := by
  unfold RankingDatabase.login
  cases hg : db.get u with
  | none => simp
  | some e =>
    by_cases hp : e.pw = p
    · simp [hp, h]
    · simp [hp]

/-- Witness for login_exact_username_at_most_once at a concrete store. -/
theorem login_exact_username_at_most_once_witness :
    ("bob" ∈ (⟨[], ["bob"]⟩ : RankingDatabase).logged_in) ∧
    (((⟨[], ["bob"]⟩ : RankingDatabase).login "bob" "x").1 ≠ LoginResult.LoginSuccess ∧
     ((⟨[], ["bob"]⟩ : RankingDatabase).login "bob" "x").2
        = (⟨[], ["bob"]⟩ : RankingDatabase)) :=
  ⟨by decide, login_exact_username_at_most_once ⟨[], ["bob"]⟩ "bob" "x" (by decide)⟩

theorem applyUpdate_getElem (t : List DBRow) (u : String × ℚ × ℚ) (i : Nat) :
    (applyUpdate t u)[i]? = (t[i]?).map
      (fun r => if r.name = u.1 then { r with mu := u.2.1, sigma := u.2.2 } else r) := by
  simp [applyUpdate]

theorem applyUpdates_length (us : List (String × ℚ × ℚ)) (t : List DBRow) :
    (applyUpdates t us).length = t.length := by
  induction us generalizing t with
  | nil => rfl
  | cons u us ih =>
    show (applyUpdates (applyUpdate t u) us).length = t.length
    rw [ih, applyUpdate]
    simp

theorem applyUpdates_getElem_of_not_hit (us : List (String × ℚ × ℚ)) (t : List DBRow)
    (i : Nat) (r : DBRow) (hr : t[i]? = some r) (hn : ∀ u ∈ us, r.name ≠ u.1) :
    (applyUpdates t us)[i]? = some r := by
  induction us generalizing t with
  | nil => exact hr
  | cons u us ih =>
    show (applyUpdates (applyUpdate t u) us)[i]? = some r
    refine ih (applyUpdate t u) ?_ (fun v hv => hn v (List.mem_cons_of_mem u hv))
    rw [applyUpdate_getElem, hr]
    simp [hn u (List.mem_cons_self u us)]

/-- Claim C4 is false on the code: update_ranking rewrites the rating rows
but does not touch the logged-in set inside the call; both participating
usernames remain logged in afterwards (their logoff is a separate call made
by the match supervisor). -/
theorem updateRanking_leaves_users_logged_in :
    (RankingDatabase.updateRanking (fun olds _ => olds.map (fun o => (o.2.1 + 1, o.2.2)))
        ⟨[⟨"a", "p", 25, 8⟩, ⟨"b", "q", 25, 8⟩], ["a", "b"]⟩
        [("a", 0), ("b", 1)]).logged_in = ["a", "b"] ∧
    "a" ∈ (RankingDatabase.updateRanking (fun olds _ => olds.map (fun o => (o.2.1 + 1, o.2.2)))
        ⟨[⟨"a", "p", 25, 8⟩, ⟨"b", "q", 25, 8⟩], ["a", "b"]⟩
        [("a", 0), ("b", 1)]).logged_in := by
  exact ⟨rfl, by rw [RankingDatabase.updateRanking]; decide⟩

/-- Claim C4 amended: one update_ranking call rewrites only the rating
parameters of the rows of participating (lowercased) usernames: the table
keeps its length, the row of every username not among the lowercased
participants is completely unchanged, and the logged-in set is not modified
at all; removing the participants from the logged-in set happens in separate
per-user logoff calls made by the supervisor, not inside update_ranking. -/
theorem updateRanking_changes_only_participant_rows
    (rateFn : List (String × ℚ × ℚ) → List Nat → List (ℚ × ℚ))
    (db : RankingDatabase) (mr : List (String × Nat)) (i : Nat) (r : DBRow)
    (hr : db.table[i]? = some r)
    (hout : ∀ kv ∈ mr, r.name ≠ pyLower (pyLower kv.1)) :
    ((RankingDatabase.updateRanking rateFn db mr).logged_in = db.logged_in) ∧
    ((RankingDatabase.updateRanking rateFn db mr).table.length = db.table.length) ∧
    ((RankingDatabase.updateRanking rateFn db mr).table[i]? = some r) := by
  refine ⟨rfl, applyUpdates_length _ _, ?_⟩
  refine applyUpdates_getElem_of_not_hit _ _ _ _ hr ?_
  intro u hu hcontra
  have h1 : u.1 ∈ ((db.getMulti ((mr.map (fun kv => (pyLower kv.1, kv.2))).map Prod.fst)).map
      (fun r => r.name)) := by
    have := List.of_mem_zip hu
    exact this.1
  obtain ⟨e, he, hname⟩ := List.mem_map.mp h1
  have hpred := (List.mem_filter.mp he).2
  have hmem : e.name ∈ ((mr.map (fun kv => (pyLower kv.1, kv.2))).map Prod.fst).map pyLower := by
    simpa [RankingDatabase.getMulti] using hpred
  obtain ⟨n, hn, hlow⟩ := List.mem_map.mp hmem
  obtain ⟨kvl, hkvl, hfst⟩ := List.mem_map.mp hn
  obtain ⟨kv, hkv, hmk⟩ := List.mem_map.mp hkvl
  refine hout kv hkv ?_
  rw [hcontra, ← hname, ← hlow, ← hfst, ← hmk]

/-- Witness for updateRanking_changes_only_participant_rows at a concrete
store with one non-participating row. -/
theorem updateRanking_changes_only_participant_rows_witness :
    (((⟨[⟨"zed", "q", 25, 8⟩], ["w"]⟩ : RankingDatabase).table[0]? = some ⟨"zed", "q", 25, 8⟩) ∧
      (∀ kv ∈ [("ann", 0)], ("zed" : String) ≠ pyLower (pyLower kv.1))) ∧
    ((RankingDatabase.updateRanking (fun olds _ => olds.map (fun o => (o.2.1, o.2.2))) ⟨[⟨"zed", "q", 25, 8⟩], ["w"]⟩
        [("ann", 0)]).logged_in = ["w"] ∧
     (RankingDatabase.updateRanking (fun olds _ => olds.map (fun o => (o.2.1, o.2.2))) ⟨[⟨"zed", "q", 25, 8⟩], ["w"]⟩
        [("ann", 0)]).table.length = 1 ∧
     (RankingDatabase.updateRanking (fun olds _ => olds.map (fun o => (o.2.1, o.2.2))) ⟨[⟨"zed", "q", 25, 8⟩], ["w"]⟩
        [("ann", 0)]).table[0]? = some ⟨"zed", "q", 25, 8⟩) :=
  ⟨⟨by decide, by decide⟩,
   updateRanking_changes_only_participant_rows (fun olds _ => olds.map (fun o => (o.2.1, o.2.2)))
     ⟨[⟨"zed", "q", 25, 8⟩], ["w"]⟩ [("ann", 0)] 0 ⟨"zed", "q", 25, 8⟩
     (by decide) (by decide)⟩

/-- Claim C2 is false on the code: MatchProcessJanitor.run has no exception
guard, so when a per-user logoff raises (the user is not in the logged-in
set), the port is never returned and the semaphore is never released; and
when the completion path runs twice without an exception, the port is
enqueued twice and the semaphore is incremented twice. -/
theorem janitor_reclamation_not_guarded :
    (janitorRun (fun olds _ => olds.map (fun o => (o.2.1, o.2.2))) 7000 ["a"] none
        ⟨[], 0, ⟨[], []⟩⟩ = Except.error ⟨[], 0, ⟨[], []⟩⟩) ∧
    (janitorRun (fun olds _ => olds.map (fun o => (o.2.1, o.2.2))) 7000 [] none
        ⟨[], 0, ⟨[], []⟩⟩ = Except.ok ⟨[7000], 1, ⟨[], []⟩⟩) ∧
    (janitorRun (fun olds _ => olds.map (fun o => (o.2.1, o.2.2))) 7000 [] none
        ⟨[7000], 1, ⟨[], []⟩⟩ = Except.ok ⟨[7000, 7000], 2, ⟨[], []⟩⟩) :=
  ⟨rfl, rfl, rfl⟩

/-- Claim C2 amended: only on the exception-free path does the janitor
return the port to the pool exactly once and release the semaphore exactly
once (whether or not the match produced a ranking dict); if the ranking
update or a per-user logoff raises, neither the port nor the semaphore is
reclaimed, and nothing guards the path against double execution, so running
it twice reclaims twice. -/
theorem janitor_reclaims_once_on_normal_path
    (rateFn : List (String × ℚ × ℚ) → List Nat → List (ℚ × ℚ))
    (port : Nat) (playerList : List String)
    (rankings : Option (List (String × Nat))) (s : JanitorState) :
    match janitorRun rateFn port playerList rankings s with
    | Except.ok s2 => s2.ports = s.ports ++ [port] ∧ s2.sem = s.sem + 1
    | Except.error s2 => s2.ports = s.ports ∧ s2.sem = s.sem := by
  unfold janitorRun
  cases hL : logoffAll
      (match rankings with
       | some r => RankingDatabase.updateRanking rateFn s.db r
       | none => s.db) playerList with
  | error dbE => simp [hL]
  | ok db2 => simp [hL]

theorem connStep_inv (wl : List String) (s : ConnState) (e : ConnEvent)
    (hwl : wl ≠ []) (h : ConnInv s) : ConnInv (connStep wl s e) := by
  obtain ⟨hpid, hkey, hwc⟩ := h
  cases e with
  | join p =>
    simp only [connStep]
    by_cases h1 : (s.connected.find? (fun q => q.pid = p.pid)).isSome = true
    · rw [if_pos h1]; exact ⟨hpid, hkey, hwc⟩
    · rw [if_neg h1]
      by_cases h2 : joinAdmitted wl s p
      · rw [if_pos h2]
        obtain ⟨h2a, h2b⟩ := h2
        have hkeyfree : ¬ (s.wc p.authentication_key = true) := fun hc => h2b ⟨hwl, hc⟩
        have hkeynotin : p.authentication_key ∉ s.connected.map Session.authentication_key :=
          fun hin => hkeyfree ((hwc p.authentication_key).mpr hin)
        have hpidnotin : p.pid ∉ s.connected.map Session.pid := by
          intro hin
          obtain ⟨q, hq, hqe⟩ := List.mem_map.mp hin
          exact h1 (List.find?_isSome.mpr ⟨q, hq, by simp [hqe]⟩)
        refine ⟨?_, ?_, ?_⟩
        · rw [List.map_append]
          simp only [List.nodup_append, List.map_cons, List.map_nil]
          exact ⟨hpid, List.nodup_singleton _, by simpa using hpidnotin⟩
        · rw [List.map_append]
          simp only [List.nodup_append, List.map_cons, List.map_nil]
          exact ⟨hkey, List.nodup_singleton _, by simpa using hkeynotin⟩
        · intro t
          show (if t = p.authentication_key then true else s.wc t) = true ↔ _
          rw [List.map_append]
          by_cases ht : t = p.authentication_key
          · simp [ht]
          · simp only [if_neg ht, hwc t, List.mem_append]
            simp [ht]
      · rw [if_neg h2]; exact ⟨hpid, hkey, hwc⟩
  | leave pid =>
    simp only [connStep]
    cases hf : s.connected.find? (fun q => q.pid = pid) with
    | none => exact show ConnInv s from ⟨hpid, hkey, hwc⟩
    | some q =>
      show ConnInv ⟨s.connected.filter (fun r => r.pid ≠ pid),
        fun k => if k = q.authentication_key then false else s.wc k⟩
      have hq_mem : q ∈ s.connected := List.mem_of_find?_eq_some hf
      have hq_pid : q.pid = pid := by simpa using List.find?_some hf
      have hsub : (s.connected.filter (fun r => r.pid ≠ pid)).Sublist s.connected :=
        List.filter_sublist _
      refine ⟨?_, ?_, ?_⟩
      · exact List.Nodup.sublist (hsub.map Session.pid) hpid
      · exact List.Nodup.sublist (hsub.map Session.authentication_key) hkey
      · intro t
        show (if t = q.authentication_key then false else s.wc t) = true ↔ _
        by_cases ht : t = q.authentication_key
        · rw [if_pos ht]
          refine iff_of_false (by simp) ?_
          intro hin
          obtain ⟨r, hr, hre⟩ := List.mem_map.mp hin
          obtain ⟨hrmem, hrpid⟩ := List.mem_filter.mp hr
          have : r = q :=
            List.inj_on_of_nodup_map hkey hrmem hq_mem (by rw [hre, ht])
          rw [this] at hrpid
          simp [hq_pid] at hrpid
        · rw [if_neg ht, hwc t]
          constructor
          · intro htin
            obtain ⟨r, hr, hre⟩ := List.mem_map.mp htin
            have hrq : r ≠ q := fun he => ht (by rw [← hre, he])
            have hrpid : r.pid ≠ pid := by
              intro hp
              exact hrq (List.inj_on_of_nodup_map hpid hr hq_mem (by rw [hp, hq_pid]))
            exact hre ▸ List.mem_map_of_mem _ (List.mem_filter.mpr ⟨hr, by simpa using hrpid⟩)
          · intro htin
            obtain ⟨r, hr, hre⟩ := List.mem_map.mp htin
            exact hre ▸ List.mem_map_of_mem _ (List.mem_filter.mp hr).1

theorem connFold_inv (wl : List String) (hwl : wl ≠ []) (evts : List ConnEvent)
    (s : ConnState) (h : ConnInv s) : ConnInv (evts.foldl (connStep wl) s) := by
  induction evts generalizing s with
  | nil => exact h
  | cons e evts ih => exact ih _ (connStep_inv wl s e hwl h)

theorem connRun_inv (wl : List String) (evts : List ConnEvent) (hwl : wl ≠ []) :
    ConnInv (connRun wl evts) :=
  connFold_inv wl hwl evts _ ⟨List.nodup_nil, List.nodup_nil, by simp⟩

/-- Claim C6 is false on the code as universally stated: a dropout during
CONNECTING resets whitelist_connected for its token, so a token already
consumed by an earlier accepted session can admit a second session after the
first one leaves; over the whole CONNECTING phase the token tok1 admits two
sessions. -/
theorem whitelist_token_reusable_after_dropout :
    ((connRunLog ["tok1"] [ConnEvent.join sessT1, ConnEvent.leave 11,
        ConnEvent.join sessT2]).2 = [sessT1, sessT2]) ∧
    (sessT1.authentication_key = "tok1" ∧ sessT2.authentication_key = "tok1") ∧
    ((connRun ["tok1"] [ConnEvent.join sessT1, ConnEvent.leave 11,
        ConnEvent.join sessT2]).connected = [sessT2]) := by
  decide

/-- Claim C6 amended: with a non-empty whitelist, a session whose token is
not on the whitelist, or whose token is currently consumed by a connected
session, is rejected by deleting only its own row — the rest of the
CONNECTING state is exactly unchanged; consequently at every point of the
phase the currently connected sessions hold pairwise distinct tokens (a
token admits at most one session at a time). A token is freed again when its
holder drops out during CONNECTING, so one-time consumption holds only while
the holder stays connected, as the counterexample shows. -/
theorem whitelist_tokens_unique_concurrently (wl : List String)
    (evts : List ConnEvent) (p : Session) (hwl : wl ≠ [])
    (hnew : ((connRun wl evts).connected.find? (fun q => q.pid = p.pid)).isSome = false)
    (hrej : p.authentication_key ∉ wl ∨ (connRun wl evts).wc p.authentication_key = true) :
    (((connRun wl evts).connected.map Session.authentication_key).Nodup) ∧
    (connRun wl (evts ++ [ConnEvent.join p]) = connRun wl evts) := by
  refine ⟨(connRun_inv wl evts hwl).2.1, ?_⟩
  show (evts ++ [ConnEvent.join p]).foldl (connStep wl) _ = _
  rw [List.foldl_append]
  show connStep wl (connRun wl evts) (ConnEvent.join p) = connRun wl evts
  simp only [connStep]
  rw [if_neg (by simp [hnew])]
  rw [if_neg ?hadm]
  case hadm =>
    intro hadm
    obtain ⟨ha, hb⟩ := hadm
    cases hrej with
    | inl hnot => exact ha ⟨hwl, hnot⟩
    | inr hcons => exact hb ⟨hwl, hcons⟩

/-- Witness for whitelist_tokens_unique_concurrently: one session is
connected holding tok1 and a second session with the same token is rejected
with no state change. -/
theorem whitelist_tokens_unique_concurrently_witness :
    ((["tok1"] : List String) ≠ [] ∧
     ((connRun ["tok1"] [ConnEvent.join sessT1]).connected.find?
        (fun q => q.pid = sessT2.pid)).isSome = false ∧
     (sessT2.authentication_key ∉ (["tok1"] : List String) ∨
      (connRun ["tok1"] [ConnEvent.join sessT1]).wc sessT2.authentication_key = true)) ∧
    ((((connRun ["tok1"] [ConnEvent.join sessT1]).connected.map
        Session.authentication_key).Nodup) ∧
     (connRun ["tok1"] ([ConnEvent.join sessT1] ++ [ConnEvent.join sessT2])
        = connRun ["tok1"] [ConnEvent.join sessT1])) :=
  ⟨⟨by decide, by decide, Or.inr (by decide)⟩,
   whitelist_tokens_unique_concurrently ["tok1"] [ConnEvent.join sessT1] sessT2
     (by decide) (by decide) (Or.inr (by decide))⟩

/-- Claim C8 confirmed: finalizing the sessions present at the end of
CONNECTING (the players dict, kept in join order) assigns seat numbers that
are exactly 0..N-1 in order: the seat list is range N, seats are pairwise
distinct, and the i-th surviving session in join order keeps its identity
and receives seat i. -/
theorem seats_contiguous_in_join_order (obsPort : Nat → Int) (initTurns : List Int)
    (wl : List String) (evts : List ConnEvent) (i : Nat)
    (hi : i < (connRun wl evts).connected.length) :
    ((finalizePlayers obsPort initTurns (connRun wl evts).connected).map Session.number
        = (List.range (connRun wl evts).connected.length).map (fun (n : Nat) => (n : Int))) ∧
    (((finalizePlayers obsPort initTurns (connRun wl evts).connected).map
        Session.number).Nodup) ∧
    ((finalizePlayers obsPort initTurns (connRun wl evts).connected)[i]?.map Session.number
        = some (i : Int)) ∧
    ((finalizePlayers obsPort initTurns (connRun wl evts).connected)[i]?.map Session.pid
        = ((connRun wl evts).connected[i]?.map Session.pid)) := by
  set ps := (connRun wl evts).connected with hps
  have hmapnum : (finalizePlayers obsPort initTurns ps).map Session.number
      = (List.range ps.length).map (fun (n : Nat) => (n : Int)) := by
    apply List.ext_getElem?
    intro n
    by_cases hlt : n < ps.length
    · show ((ps.enum.map _).map Session.number)[n]? = _
      rw [List.getElem?_map, List.getElem?_map, List.getElem?_enum,
        List.getElem?_eq_getElem hlt, List.getElem?_map, List.getElem?_range hlt]
      rfl
    · show ((ps.enum.map _).map Session.number)[n]? = _
      rw [List.getElem?_eq_none, List.getElem?_eq_none]
      · simpa using hlt
      · simpa using hlt
  have hget : (finalizePlayers obsPort initTurns ps)[i]?
      = (ps[i]?).map (fun a =>
          { a with
              number := (i : Int),
              observation_port := obsPort a.pid,
              turn := if (i : Int) ∈ initTurns then true else a.turn }) := by
    show ((ps.enum.map _))[i]? = _
    rw [List.getElem?_map, List.getElem?_enum, Option.map_map]
    rfl
  refine ⟨hmapnum, ?_, ?_, ?_⟩
  · rw [hmapnum]
    exact (List.nodup_range _).map (fun a b => by omega)
  · rw [hget, List.getElem?_eq_getElem hi]
    rfl
  · rw [hget, List.getElem?_eq_getElem hi]
    rfl

/-- Witness for seats_contiguous_in_join_order after a concrete CONNECTING
phase with two accepted sessions. -/
theorem seats_contiguous_in_join_order_witness :
    (0 < (connRun ["tokA", "tokB"]
        [ConnEvent.join sessA, ConnEvent.join sessB]).connected.length) ∧
    (((finalizePlayers (fun _ => 9000) [0]
        (connRun ["tokA", "tokB"]
          [ConnEvent.join sessA, ConnEvent.join sessB]).connected).map Session.number
        = (List.range (connRun ["tokA", "tokB"]
            [ConnEvent.join sessA, ConnEvent.join sessB]).connected.length).map
            (fun (n : Nat) => (n : Int))) ∧
     (((finalizePlayers (fun _ => 9000) [0]
        (connRun ["tokA", "tokB"]
          [ConnEvent.join sessA, ConnEvent.join sessB]).connected).map
          Session.number).Nodup) ∧
     ((finalizePlayers (fun _ => 9000) [0]
        (connRun ["tokA", "tokB"]
          [ConnEvent.join sessA, ConnEvent.join sessB]).connected)[0]?.map Session.number
        = some (0 : Int)) ∧
     ((finalizePlayers (fun _ => 9000) [0]
        (connRun ["tokA", "tokB"]
          [ConnEvent.join sessA, ConnEvent.join sessB]).connected)[0]?.map Session.pid
        = ((connRun ["tokA", "tokB"]
            [ConnEvent.join sessA, ConnEvent.join sessB]).connected[0]?.map Session.pid))) :=
  ⟨by decide,
   seats_contiguous_in_join_order (fun _ => 9000) [0] ["tokA", "tokB"]
     [ConnEvent.join sessA, ConnEvent.join sessB] 0 (by decide)⟩

theorem findByNumber_of_nodup (players : List Session) (p : Session)
    (hmem : p ∈ players) (hnodup : (players.map Session.number).Nodup) :
    findByNumber players p.number = some p := by
  induction players with
  | nil => cases hmem
  | cons q rest ih =>
    rcases List.mem_cons.mp hmem with rfl | hm
    · simp [findByNumber, List.find?]
    · have hq : ¬ (q.number = p.number) := by
        intro he
        refine (List.nodup_cons.mp hnodup).1 ?_
        rw [he]
        exact List.mem_map_of_mem Session.number hm
      show List.find? _ (q :: rest) = some p
      rw [List.find?_cons_of_neg _ (by simpa using hq)]
      exact ih hm (List.nodup_cons.mp hnodup).2

/-- Claim C1 is false on the code: the actions list of a RUNNING tick is
built by filtering the players dict in its own (join/seat) order, while the
players argument of next_state is the turn-holder list in the order the
environment returned it; when the environment returns the turn list [1, 0],
the first action passed is that of player 0, not of player 1 (the first
turn holder), so the two lists are misaligned. -/
theorem tick_actions_misaligned_at_unsorted_turns :
    ((runningTickCall (fun (_ : Unit) _ _ => true) () [sessA, sessB] [1, 0]).players[0]?
        = some 1) ∧
    ((runningTickCall (fun (_ : Unit) _ _ => true) () [sessA, sessB] [1, 0]).actions[0]?
        = some "actA") ∧
    (((findByNumber [sessA, sessB] 1).map
        (validateAction (fun (_ : Unit) _ _ => true) ())) = some "actB") ∧
    (("actA" : String) ≠ "actB") := by
  decide

/-- Claim C1 amended: within one tick the i-th entry of the actions list is
the validated pending action of the i-th session of the filtered session
list (the players dict restricted to current turn holders, in dict order,
which is join and seat order); the i-th action therefore matches the i-th
turn holder of the players argument exactly when the environment's
turn-holder list enumerates the turn holders in that same session order, as
in the aligned case proved here; the counterexample shows the lists
misalign for a turn-holder list in any other order. -/
theorem tick_actions_follow_session_order {S : Type}
    (isValid : S → Int → String → Bool) (state : S) (players : List Session)
    (turns : List Int) (i : Nat)
    (hnodup : (players.map Session.number).Nodup)
    (horder : (currentPlayers players turns).map Session.number = turns)
    (hi : i < turns.length) :
    ∃ n p, turns[i]? = some n ∧ findByNumber players n = some p ∧
      (runningTickCall isValid state players turns).actions[i]? =
        some (validateAction isValid state p) := by
  have hlen : (currentPlayers players turns).length = turns.length := by
    simpa using congrArg List.length horder
  have hi2 : i < (currentPlayers players turns).length := by rw [hlen]; exact hi
  set p0 := (currentPlayers players turns).get ⟨i, hi2⟩ with hp0
  have hcp : (currentPlayers players turns)[i]? = some p0 :=
    List.getElem?_eq_getElem hi2
  have hturn : turns[i]? = some p0.number := by
    rw [← horder, List.getElem?_map, hcp]
    rfl
  have hmem0 : p0 ∈ currentPlayers players turns := by
    rw [hp0]
    exact List.get_mem _ _ _
  have hmem : p0 ∈ players := by
    rw [currentPlayers] at hmem0
    exact List.mem_of_mem_filter hmem0
  refine ⟨p0.number, p0, hturn, findByNumber_of_nodup players p0 hmem hnodup, ?_⟩
  show (currentActions isValid state players turns)[i]? = _
  rw [currentActions, List.getElem?_map, hcp]
  rfl

/-- Witness for tick_actions_follow_session_order: with the turn-holder list
[0, 1] in session order, the first forwarded action is the validated pending
action of the first turn holder. -/
theorem tick_actions_follow_session_order_witness :
    ((([sessA, sessB].map Session.number).Nodup) ∧
     ((currentPlayers [sessA, sessB] [0, 1]).map Session.number = [0, 1]) ∧
     (0 < ([0, 1] : List Int).length)) ∧
    (∃ n p, ([0, 1] : List Int)[0]? = some n ∧ findByNumber [sessA, sessB] n = some p ∧
      (runningTickCall (fun (_ : Unit) _ _ => true) () [sessA, sessB] [0, 1]).actions[0]? =
        some (validateAction (fun (_ : Unit) _ _ => true) () p)) :=
  ⟨⟨by decide, by decide, by decide⟩,
   tick_actions_follow_session_order (fun (_ : Unit) _ _ => true) () [sessA, sessB]
     [0, 1] 0 (by decide) (by decide) (by decide)⟩

/-- Claim C7 confirmed: on a tick that proceeds, every current turn holder
contributes exactly one entry to the forwarded actions list (same length, no
session dropped and no error raised), and that entry is its pending action
exactly when the pending action is empty or accepted by is_valid_action, and
the empty no-op string otherwise. -/
theorem tick_action_validation {S : Type} (isValid : S → Int → String → Bool)
    (state : S) (players : List Session) (turns : List Int) (i : Nat) (p : Session)
    (hp : (currentPlayers players turns)[i]? = some p) :
    ((runningTickCall isValid state players turns).actions.length
        = (currentPlayers players turns).length) ∧
    ((runningTickCall isValid state players turns).actions[i]? =
        some (validateAction isValid state p)) ∧
    ((validateAction isValid state p = p.action) ↔
        (p.action = "" ∨ isValid state p.number p.action = true)) ∧
    (validateAction isValid state p = p.action ∨ validateAction isValid state p = "") := by
  refine ⟨List.length_map _ _, ?_, ?_, ?_⟩
  · show (currentActions isValid state players turns)[i]? = _
    rw [currentActions, List.getElem?_map, hp]
    rfl
  · constructor
    · intro hv
      by_contra hcond
      rw [validateAction, if_neg hcond] at hv
      exact hcond (Or.inl hv.symm)
    · intro hcond
      rw [validateAction, if_pos hcond]
  · rw [validateAction]
    by_cases hcond : (p.action = "" ∨ isValid state p.number p.action = true)
    · exact Or.inl (by rw [if_pos hcond])
    · exact Or.inr (by rw [if_neg hcond])

/-- Witness for tick_action_validation: a turn holder with an invalid
nonempty pending action has the empty no-op forwarded at its position. -/
theorem tick_action_validation_witness :
    ((currentPlayers [sessA, sessB] [0, 1])[0]? = some sessA) ∧
    (((runningTickCall (fun (_ : Unit) _ _ => false) () [sessA, sessB] [0, 1]).actions.length
        = (currentPlayers [sessA, sessB] [0, 1]).length) ∧
     ((runningTickCall (fun (_ : Unit) _ _ => false) () [sessA, sessB] [0, 1]).actions[0]? =
        some (validateAction (fun (_ : Unit) _ _ => false) () sessA)) ∧
     ((validateAction (fun (_ : Unit) _ _ => false) () sessA = sessA.action) ↔
        (sessA.action = "" ∨ (fun (_ : Unit) _ _ => false) () sessA.number sessA.action = true)) ∧
     (validateAction (fun (_ : Unit) _ _ => false) () sessA = sessA.action ∨
      validateAction (fun (_ : Unit) _ _ => false) () sessA = "")) :=
  ⟨by decide,
   tick_action_validation (fun (_ : Unit) _ _ => false) () [sessA, sessB] [0, 1] 0 sessA
     (by decide)⟩

theorem selectPlayers_eq_take_drop (n : Nat) (reqs : List MatchRequest)
    (h : n ≤ reqs.length) :
    selectPlayers n reqs = some (reqs.take n, reqs.drop n) := by
  induction n generalizing reqs with
  | zero => simp [selectPlayers]
  | succ n ih =>
    cases reqs with
    | nil => simp at h
    | cons r rs =>
      show (match selectPlayers n rs with
        | some (sel, rem) => some (r :: sel, rem)
        | none => none) = _
      rw [ih rs (Nat.succ_le_succ_iff.mp h)]
      rfl

/-- Claim C9 confirmed: whenever at least players_per_game requests are
pending, one pass of the matchmaking loop forms exactly one match by popping
exactly players_per_game entries from the front of the pending OrderedDict
(first-in-first-out), and the remaining entries are exactly the untouched
suffix of the queue. -/
theorem matchmaking_pops_oldest_fifo (ppg : Nat) (reqs : List MatchRequest)
    (h : ppg ≤ reqs.length) :
    (matchmakingStep ppg reqs =
      some ((reqs.take ppg, (reqs.take ppg).map MatchRequest.authKey,
             (reqs.take ppg).map MatchRequest.username), reqs.drop ppg)) ∧
    ((reqs.take ppg).length = ppg) ∧
    (reqs.take ppg ++ reqs.drop ppg = reqs) := by
  refine ⟨?_, ?_, List.take_append_drop ppg reqs⟩
  · rw [matchmakingStep, if_pos h, selectPlayers_eq_take_drop ppg reqs h]
  · rw [List.length_take]
    exact Nat.min_eq_left h

/-- Witness for matchmaking_pops_oldest_fifo with three pending requests and
a two-player game. -/
theorem matchmaking_pops_oldest_fifo_witness :
    (2 ≤ ([⟨1, "ua", "ka"⟩, ⟨2, "ub", "kb"⟩, ⟨3, "uc", "kc"⟩] : List MatchRequest).length) ∧
    ((matchmakingStep 2 [⟨1, "ua", "ka"⟩, ⟨2, "ub", "kb"⟩, ⟨3, "uc", "kc"⟩] =
      some ((([⟨1, "ua", "ka"⟩, ⟨2, "ub", "kb"⟩, ⟨3, "uc", "kc"⟩] : List MatchRequest).take 2,
             (([⟨1, "ua", "ka"⟩, ⟨2, "ub", "kb"⟩, ⟨3, "uc", "kc"⟩] : List MatchRequest).take 2).map
               MatchRequest.authKey,
             (([⟨1, "ua", "ka"⟩, ⟨2, "ub", "kb"⟩, ⟨3, "uc", "kc"⟩] : List MatchRequest).take 2).map
               MatchRequest.username),
            ([⟨1, "ua", "ka"⟩, ⟨2, "ub", "kb"⟩, ⟨3, "uc", "kc"⟩] : List MatchRequest).drop 2)) ∧
     ((([⟨1, "ua", "ka"⟩, ⟨2, "ub", "kb"⟩, ⟨3, "uc", "kc"⟩] : List MatchRequest).take 2).length = 2) ∧
     (([⟨1, "ua", "ka"⟩, ⟨2, "ub", "kb"⟩, ⟨3, "uc", "kc"⟩] : List MatchRequest).take 2 ++
        ([⟨1, "ua", "ka"⟩, ⟨2, "ub", "kb"⟩, ⟨3, "uc", "kc"⟩] : List MatchRequest).drop 2
        = [⟨1, "ua", "ka"⟩, ⟨2, "ub", "kb"⟩, ⟨3, "uc", "kc"⟩])) :=
  ⟨by decide,
   matchmaking_pops_oldest_fifo 2 [⟨1, "ua", "ka"⟩, ⟨2, "ub", "kb"⟩, ⟨3, "uc", "kc"⟩]
     (by decide)⟩

/-- Claim C10 confirmed: the scheduler's players_per_game is exactly the
configured environment's min_players, fixed at construction; the scheduler's
match-forming step is identical for two environments that agree on
min_players however much their max_players differ (max_players is never
consulted); and every formed match selects and whitelists exactly
min_players sessions, even when more requests are pending. -/
theorem scheduler_uses_min_players_only (e1 e2 : EnvClass) (reqs : List MatchRequest)
    (hmin : e1.min_players = e2.min_players) (hlen : e1.min_players ≤ reqs.length) :
    (playersPerGame e1 = e1.min_players) ∧
    (matchmakingStep (playersPerGame e1) reqs = matchmakingStep (playersPerGame e2) reqs) ∧
    (∃ sel wlist names rem,
       matchmakingStep (playersPerGame e1) reqs = some ((sel, wlist, names), rem) ∧
       sel.length = e1.min_players ∧ wlist.length = e1.min_players) := by
  refine ⟨rfl, by rw [playersPerGame, playersPerGame, hmin], ?_⟩
  have hsel := selectPlayers_eq_take_drop e1.min_players reqs hlen
  refine ⟨reqs.take e1.min_players,
    (reqs.take e1.min_players).map MatchRequest.authKey,
    (reqs.take e1.min_players).map MatchRequest.username,
    reqs.drop e1.min_players, ?_, ?_, ?_⟩
  · show (if e1.min_players ≤ reqs.length then
        match selectPlayers e1.min_players reqs with
        | some (sel, rem) =>
          some ((sel, sel.map MatchRequest.authKey, sel.map MatchRequest.username), rem)
        | none => none
      else none) = _
    rw [if_pos hlen, hsel]
  · rw [List.length_take]
    exact Nat.min_eq_left hlen
  · rw [List.length_map, List.length_take]
    exact Nat.min_eq_left hlen

/-- Witness for scheduler_uses_min_players_only: two environments with
min_players 2 but different max_players, three pending requests; the formed
match whitelists exactly two sessions either way. -/
theorem scheduler_uses_min_players_only_witness :
    ((⟨2, 5⟩ : EnvClass).min_players = (⟨2, 99⟩ : EnvClass).min_players ∧
     (⟨2, 5⟩ : EnvClass).min_players ≤
        ([⟨1, "ua", "ka"⟩, ⟨2, "ub", "kb"⟩, ⟨3, "uc", "kc"⟩] : List MatchRequest).length) ∧
    ((playersPerGame ⟨2, 5⟩ = (⟨2, 5⟩ : EnvClass).min_players) ∧
     (matchmakingStep (playersPerGame ⟨2, 5⟩)
        [⟨1, "ua", "ka"⟩, ⟨2, "ub", "kb"⟩, ⟨3, "uc", "kc"⟩]
      = matchmakingStep (playersPerGame ⟨2, 99⟩)
        [⟨1, "ua", "ka"⟩, ⟨2, "ub", "kb"⟩, ⟨3, "uc", "kc"⟩]) ∧
     (∃ sel wlist names rem,
        matchmakingStep (playersPerGame ⟨2, 5⟩)
          [⟨1, "ua", "ka"⟩, ⟨2, "ub", "kb"⟩, ⟨3, "uc", "kc"⟩]
          = some ((sel, wlist, names), rem) ∧
        sel.length = (⟨2, 5⟩ : EnvClass).min_players ∧
        wlist.length = (⟨2, 5⟩ : EnvClass).min_players)) :=
  ⟨⟨by decide, by decide⟩,
   scheduler_uses_min_players_only ⟨2, 5⟩ ⟨2, 99⟩
     [⟨1, "ua", "ka"⟩, ⟨2, "ub", "kb"⟩, ⟨3, "uc", "kc"⟩] (by decide) (by decide)⟩

end Colosseum
